import Mathlib

/-!
Shallow embedding of the ELISA-IE/bert_fet scripts
(`scripts/cfet2bfet.py`, `scripts/sample_cfet.py`, `scripts/wikiann2cfet.py`)
and proofs about the claims on their behaviour.

Conventions of the embedding:
* Python strings are `String`, Python ints are `ℕ` (all indices and counts in
  these scripts are non-negative) or `ℤ` where a subtraction can go negative
  (`max_len - 2`), Python floats are modelled as real numbers `ℝ` (for the
  `** .55` power) or rationals `ℚ` (for plain comparisons of draws to rates).
* The external word-piece tokenizer is a black box `String → List String`
  (its `tokenize` method) together with `encode : List String → List ℤ`.
* Python runtime failures (`TypeError` for a call with a missing required
  argument, `IndexError` for an out-of-range list subscript) are modelled by
  `Except PyError`.
* The random draws `random.uniform(0, 1)` are made explicit parameters of the
  decision functions, so "kept with probability 1" becomes "kept for every
  value of the draw".
-/

namespace BertFet

/-- Python runtime errors relevant to these scripts. -/
inductive PyError where
  | typeError
  | indexError
deriving DecidableEq

/-- A Python value that can be stored in the `piece_start` / `piece_end`
fields: either a scalar integer, or a whole `(offset_begin, offset_end)`
table entry (tuple).  The source of `cfet2bfet.py` stores tuples there. -/
inductive PyVal where
  | int (n : ℤ)
  | pair (p : ℕ × ℕ)
deriving DecidableEq

/-- One annotation of a CFET instance (a JSON object with fields
`mention`, `mention_id`, `start`, `end`, `labels`).  The Python field
`end` is rendered `stop` because `end` is a Lean keyword. -/
structure Ann where
  mention : String
  mention_id : String
  start : ℕ
  stop : ℕ
  labels : List String
deriving DecidableEq

/-- One CFET instance: one line of a CFET file
(`{"tokens": [...], "annotations": [...]}`). -/
structure CInstance where
  tokens : List String
  anns : List Ann
deriving DecidableEq

/-! ## `cfet2bfet.py` -/

/-- Helper for `tokenize` (`cfet2bfet.py`, lines 57–66): given the per-token
piece lists (`pieces_list = [tokenizer.tokenize(t) for t in tokens]`) and the
running `offset`, produce the flat piece list and the `(offset, end)` index
pairs exactly as the `for pieces in pieces_list` loop does. -/
def tokenizeAux : List (List String) → ℕ → List String × List (ℕ × ℕ)
  | [], _ => ([], [])
  | ps :: rest, offset =>
    let e := offset + ps.length
    let r := tokenizeAux rest e
    (ps ++ r.1, (offset, e) :: r.2)

/-- `tokenize(tokens, tokenizer)` from `cfet2bfet.py` (lines 43–66): tokenize
each token independently, flatten, and record per-token `(begin, end)` piece
offsets. -/
def tokenize (tokenizer : String → List String) (tokens : List String) :
    List String × List (ℕ × ℕ) :=
  tokenizeAux (tokens.map tokenizer) 0

/-- Number of parameters of `def tokenize(tokens, tokenizer)` — two, with no
default values. -/
def tokenizeNumParams : ℕ := 2

/-- Number of arguments supplied at the call site in `convert`
(`cfet2bfet.py` line 97): `tokenize(tokens)` passes only the token list. -/
def convertTokenizeNumArgs : ℕ := 1

/-- The `tokenize(tokens)` call as written in `convert`: Python raises
`TypeError` when a required positional argument is missing, i.e. whenever the
number of supplied arguments differs from the number of parameters. -/
def callTokenize (tokenizer : String → List String) (tokens : List String) :
    Except PyError (List String × List (ℕ × ℕ)) :=
  if convertTokenizeNumArgs = tokenizeNumParams then
    .ok (tokenize tokenizer tokens)
  else
    .error .typeError

/-- A BFET annotation: the CFET annotation plus the stored `piece_start` and
`piece_end` values. -/
structure BAnn where
  ann : Ann
  piece_start : PyVal
  piece_end : PyVal
deriving DecidableEq

/-- One output line of the BFET file: tokens, encoded pieces, and the
projected annotations. -/
structure BInstance where
  tokens : List String
  pieces : List ℤ
  anns : List BAnn
deriving DecidableEq

/-- Lines 107–109 of `cfet2bfet.py`:
`annotation['piece_start'] = piece_indices[annotation['start']]` and
`annotation['piece_end'] = piece_indices[annotation['end']]`.
Both subscripts store the whole table entry (a pair); an out-of-range
subscript raises `IndexError`. -/
def projectAnn (tbl : List (ℕ × ℕ)) (a : Ann) : Except PyError BAnn :=
  match tbl[a.start]?, tbl[a.stop]? with
  | some ps, some pe => .ok ⟨a, .pair ps, .pair pe⟩
  | _, _ => .error .indexError

/-- The `for annotation in inst['annotations']` loop of `convert`: project
every annotation, stopping at the first `IndexError`. -/
def projectAnns (tbl : List (ℕ × ℕ)) : List Ann → Except PyError (List BAnn)
  | [] => .ok []
  | a :: rest =>
    match projectAnn tbl a with
    | .error e => .error e
    | .ok b =>
      match projectAnns tbl rest with
      | .error e => .error e
      | .ok bs => .ok (b :: bs)

/-- The loop body of `convert` (lines 96–111) with the tokenizer applied to
the token list (i.e. the body as it behaves once the piece data is available;
the call as actually written is `callTokenize`, see `lineStep`):
returns `.ok none` when the instance is skipped as over-length
(`len(pieces) > text_max_len`), `.ok (some out)` for the written line, and
`.error e` when a subscript fails. -/
def processInst (tokenizer : String → List String) (enc : List String → List ℤ)
    (textMaxLen : ℤ) (inst : CInstance) : Except PyError (Option BInstance) :=
  let r := tokenize tokenizer inst.tokens
  if (r.1.length : ℤ) > textMaxLen then .ok none
  else
    match projectAnns r.2 inst.anns with
    | .error e => .error e
    | .ok banns => .ok (some ⟨inst.tokens, enc r.1, banns⟩)

/-- The loop body of `convert` exactly as written: the per-line call
`tokenize(tokens)` omits the required `tokenizer` argument, so the body
raises `TypeError` before anything else happens. -/
def lineStep (tokenizer : String → List String) (enc : List String → List ℤ)
    (textMaxLen : ℤ) (inst : CInstance) : Except PyError (Option BInstance) :=
  match callTokenize tokenizer inst.tokens with
  | .error e => .error e
  | .ok r =>
    if (r.1.length : ℤ) > textMaxLen then .ok none
    else
      match projectAnns r.2 inst.anns with
      | .error e => .error e
      | .ok banns => .ok (some ⟨inst.tokens, enc r.1, banns⟩)

/-- The `for line in r` loop of `convert`: run the body on each line,
collecting the written output lines and the `overlength_num` counter; an
uncaught exception aborts the run (nothing written for the failing line or
the remaining ones). -/
def runLoop (step : CInstance → Except PyError (Option BInstance)) :
    List CInstance → List BInstance × ℕ × Option PyError
  | [] => ([], 0, none)
  | inst :: rest =>
    match step inst with
    | .error e => ([], 0, some e)
    | .ok none =>
      let r := runLoop step rest
      (r.1, r.2.1 + 1, r.2.2)
    | .ok (some b) =>
      let r := runLoop step rest
      (b :: r.1, r.2.1, r.2.2)

/-- `convert` from `cfet2bfet.py` as written (with `text_max_len = max_len - 2`
computed up front, line 90): result is (written BFET lines, `overlength_num`,
uncaught error if any). -/
def convert (tokenizer : String → List String) (enc : List String → List ℤ)
    (maxLen : ℤ) (insts : List CInstance) : List BInstance × ℕ × Option PyError :=
  runLoop (lineStep tokenizer enc (maxLen - 2)) insts

/-- `convert` with the per-line `tokenize` call repaired to pass the
tokenizer (the behaviour of lines 98–111 in isolation from the
missing-argument fault of line 97). -/
def convertFixed (tokenizer : String → List String) (enc : List String → List ℤ)
    (maxLen : ℤ) (insts : List CInstance) : List BInstance × ℕ × Option PyError :=
  runLoop (processInst tokenizer enc (maxLen - 2)) insts

/-! ## `sample_cfet.py` -/

/-- `label_count.update(annotation['labels'])` on a `collections.Counter`
modelled as a function `String → ℕ`: add one occurrence per list element. -/
def counterUpdate (c : String → ℕ) (labels : List String) : String → ℕ :=
  labels.foldl (fun c l => fun x => if x = l then c x + 1 else c x) c

/-- `count_labels` from `sample_cfet.py` (lines 8–17), and the identical
first pass of `split` (lines 56–63): one `Counter.update` per annotation of
each instance. -/
def countLabels (corpus : List CInstance) : String → ℕ :=
  corpus.foldl (fun c inst => inst.anns.foldl (fun c a => counterUpdate c a.labels) c)
    (fun _ => 0)

/-- The list comprehension of `downsample` (lines 34–36):
`[(label, label_count[label]) for annotation in inst['annotations']
  for label in annotation['labels']]`. -/
def instLabelCounts (lc : String → ℕ) (inst : CInstance) : List (String × ℕ) :=
  inst.anns.flatMap fun a => a.labels.map fun l => (l, lc l)

/-- The comparison key of `inst_label_count.sort(key=lambda x: x[1])`:
ascending order on the stored count. -/
def countLE (p q : String × ℕ) : Prop := p.2 ≤ q.2

instance : DecidableRel countLE := fun p q => inferInstanceAs (Decidable (p.2 ≤ q.2))

instance : IsTotal (String × ℕ) countLE := ⟨fun a b => Nat.le_total a.2 b.2⟩

instance : IsTrans (String × ℕ) countLE := ⟨fun _ _ _ h1 h2 => Nat.le_trans h1 h2⟩

/-- `inst_label_count` after the in-place `sort(key=lambda x: x[1])`. -/
def sortedInstLabelCounts (lc : String → ℕ) (inst : CInstance) : List (String × ℕ) :=
  List.insertionSort countLE (instLabelCounts lc inst)

/-- The keep decision of `downsample` (lines 34–46), with the draw
`random.uniform(0, 1)` made an explicit parameter `d`:
`min_label_count = inst_label_count[0][1]` after sorting by count
(an empty list would raise `IndexError` and write nothing, modelled `False`);
keep unconditionally when `min_label_count < threshold`, otherwise keep iff
`d < (threshold + (min_label_count - threshold) ** .55) / min_label_count`. -/
def DownsampleKeep (lc : String → ℕ) (threshold : ℕ) (inst : CInstance) (d : ℝ) : Prop :=
  match (sortedInstLabelCounts lc inst).head? with
  | none => False
  | some mc =>
    if mc.2 < threshold then True
    else d < (((threshold : ℝ)) + ((mc.2 : ℝ) - (threshold : ℝ)) ^ ((0.55 : ℝ))) / (mc.2 : ℝ)

/-- The two output partitions of `split`. -/
inductive Dest where
  | train
  | dev
deriving DecidableEq

/-- `any(label in infreq_labels for annotation in inst['annotations'] for
label in annotation['labels'])`, where
`infreq_labels = \x7blabel for label, count in label_count.items() if count < threshold\x7d`:
membership in that set is exactly `lc label < threshold`. -/
def splitInfreq (lc : String → ℕ) (threshold : ℕ) (inst : CInstance) : Bool :=
  inst.anns.any fun a => a.labels.any fun l => lc l < threshold

/-- The per-line branch of `split` (lines 72–80), draw explicit:
`if infreq or random.uniform(0, 1) > rate:` write to train, else to dev. -/
def splitDest (lc : String → ℕ) (threshold : ℕ) (rate : ℚ) (inst : CInstance)
    (d : ℚ) : Dest :=
  if splitInfreq lc threshold inst ∨ d > rate then .train else .dev

/-- The second pass of `split`: route every line to exactly one of the two
output files.  Each line is paired with its uniform draw. -/
def splitRun (lc : String → ℕ) (threshold : ℕ) (rate : ℚ) :
    List (CInstance × ℚ) → List CInstance × List CInstance
  | [] => ([], [])
  | p :: rest =>
    let r := splitRun lc threshold rate rest
    match splitDest lc threshold rate p.1 p.2 with
    | .train => (p.1 :: r.1, r.2)
    | .dev => (r.1, p.1 :: r.2)

/-- `split` from `sample_cfet.py` (lines 51–80): first pass counts labels
over the whole input, second pass routes each line. -/
def split (threshold : ℕ) (rate : ℚ) (lines : List (CInstance × ℚ)) :
    List CInstance × List CInstance :=
  splitRun (countLabels (lines.map Prod.fst)) threshold rate lines

/-! ## `wikiann2cfet.py` -/

/-- A token of a wikiann document: text plus character offsets
(`start` / `end`; the latter rendered `stop`). -/
structure WToken where
  text : String
  start : ℕ
  stop : ℕ

/-- An entity link of a wikiann document.  `title?` is the value of the
configurable title field, `none` when the field is absent from the link. -/
structure WLink where
  title? : Option String
  text : String
  start : ℕ
  stop : ℕ

/-- The `for link in links` loop of `extract_data` (lines 110–126): skip
links without a title field, normalise the title (spaces to underscores),
look it up in the entity-type map, keep only target-ontology types, and
collect `(text, start, end, types)` for links with a non-empty
intersection. -/
def extractEntities (etm : String → Option (List String)) (typeSet : List String) :
    List WLink → List (String × ℕ × ℕ × List String)
  | [] => []
  | link :: rest =>
    let r := extractEntities etm typeSet rest
    match link.title? with
    | none => r
    | some title0 =>
      match etm (title0.replace " " "_") with
      | none => r
      | some types =>
        let kept := types.filter fun t => typeSet.contains t
        if kept.isEmpty then r else (link.text, link.start, link.stop, kept) :: r

/-- `token_start_offset_map` (lines 133–136): character offset of a token
start → token index; built in `enumerate` order, so on a duplicate offset the
last token wins.  `i` is the index of the first token in the list. -/
def tokenStartOffsetMap : List WToken → ℕ → (ℕ → Option ℕ)
  | [], _ => fun _ => none
  | t :: ts, i => fun o =>
    match tokenStartOffsetMap ts (i + 1) o with
    | some j => some j
    | none => if o = t.start then some i else none

/-- `token_end_offset_map` (lines 134–137): character offset of a token end
→ token index + 1; last token wins on duplicates. -/
def tokenEndOffsetMap : List WToken → ℕ → (ℕ → Option ℕ)
  | [], _ => fun _ => none
  | t :: ts, i => fun o =>
    match tokenEndOffsetMap ts (i + 1) o with
    | some j => some j
    | none => if o = t.stop then some (i + 1) else none

/-- The `for idx, (text, start, end, types) in enumerate(entities)` loop of
`extract_data` (lines 139–155): drop a link whose character boundaries miss
both offset maps (counted as not matched, consuming no counter value),
otherwise create an annotation whose `mention_id` is
`'\x7b\x7d-\x7b\x7d'.format(doc_id, doc_mention_count[doc_id])` and increment the
per-document counter `c`. -/
def buildAnns (docId : String) (sMap eMap : ℕ → Option ℕ) :
    List (String × ℕ × ℕ × List String) → ℕ → List Ann
  | [], _ => []
  | ent :: rest, c =>
    match sMap ent.2.1, eMap ent.2.2.1 with
    | some s, some e =>
      ⟨ent.1, docId ++ "-" ++ toString c, s, e, ent.2.2.2⟩
        :: buildAnns docId sMap eMap rest (c + 1)
    | _, _ => buildAnns docId sMap eMap rest c

/-- Processing of one document by `extract_data`, for a document id not seen
before (so `doc_mention_count[doc_id]` starts at `0`): the produced
annotation list. -/
def extractDoc (etm : String → Option (List String)) (typeSet : List String)
    (docId : String) (tokens : List WToken) (links : List WLink) : List Ann :=
  buildAnns docId (tokenStartOffsetMap tokens 0) (tokenEndOffsetMap tokens 0)
    (extractEntities etm typeSet links) 0

/-! ## Helper lemmas -/

theorem tokenizeAux_fst (pl : List (List String)) (off : ℕ) :
    (tokenizeAux pl off).1 = pl.flatMap id := by
  induction pl generalizing off with
  | nil => simp [tokenizeAux]
  | cons ps rest ih => simp [tokenizeAux, ih]

theorem tokenizeAux_length (pl : List (List String)) (off : ℕ) :
    (tokenizeAux pl off).2.length = pl.length := by
  induction pl generalizing off with
  | nil => simp [tokenizeAux]
  | cons ps rest ih => simp [tokenizeAux, ih]

theorem tokenizeAux_getD (pl : List (List String)) (off i : ℕ) (h : i < pl.length) :
    (tokenizeAux pl off).2.getD i (0, 0)
      = (off + ((pl.take i).map List.length).sum,
         off + ((pl.take (i + 1)).map List.length).sum) := by
  induction pl generalizing off i with
  | nil => simp at h
  | cons ps rest ih =>
    cases i with
    | zero => simp [tokenizeAux]
    | succ i =>
      have h' : i < rest.length := by simpa using h
      have := ih (off + ps.length) i h'
      simp only [tokenizeAux, List.getD_cons_succ, List.take_succ_cons, List.map_cons,
        List.sum_cons, this]
      refine Prod.ext ?_ ?_ <;> simp <;> omega

theorem tokenize_table_length (tok : String → List String) (ts : List String) :
    (tokenize tok ts).2.length = ts.length := by
  simp [tokenize, tokenizeAux_length]

theorem tokenize_flat_length (tok : String → List String) (ts : List String) :
    (tokenize tok ts).1.length = ((ts.map tok).map List.length).sum := by
  simp [tokenize, tokenizeAux_fst]

theorem projectAnns_ok (tbl : List (ℕ × ℕ)) (anns : List Ann)
    (h : ∀ a ∈ anns, a.start < tbl.length ∧ a.stop < tbl.length) :
    ∃ bs, projectAnns tbl anns = .ok bs := by
  induction anns with
  | nil => exact ⟨[], rfl⟩
  | cons a rest ih =>
    obtain ⟨hs, he⟩ := h a (by simp)
    obtain ⟨bs, hbs⟩ := ih fun a ha => h a (by simp [ha])
    refine ⟨⟨a, .pair (tbl.get ⟨a.start, hs⟩), .pair (tbl.get ⟨a.stop, he⟩)⟩ :: bs, ?_⟩
    simp only [projectAnns, projectAnn, List.getElem?_eq_getElem hs,
      List.getElem?_eq_getElem he, hbs]
    rfl

/-! ## Claims -/

/-- C1: for every input file with at least one line, `convert` fails with a
`TypeError` before writing any output line, because the per-line call
`tokenize(tokens)` omits the required `tokenizer` argument; no instance is
ever converted to BFET format (empty output, overlength counter `0`). -/
theorem convert_always_typeError (tok : String → List String)
    (enc : List String → List ℤ) (maxLen : ℤ) (insts : List CInstance)
    (h : insts ≠ []) :
    convert tok enc maxLen insts = ([], 0, some .typeError) := by
  cases insts with
  | nil => exact absurd rfl h
  | cons i rest =>
    simp [convert, runLoop, lineStep, callTokenize, tokenizeNumParams,
      convertTokenizeNumArgs]

theorem convert_always_typeError_witness :
    ((([(⟨["a"], []⟩ : CInstance)] : List CInstance) ≠ []))
    ∧ convert (fun t => [t]) (fun _ => []) 128 [⟨["a"], []⟩]
        = ([], 0, some .typeError) :=
  ⟨by decide, convert_always_typeError _ _ _ _ (by decide)⟩

/-- C2: evaluation of the annotation-projection code at the table of a
two-token document (pieces `["a","b"]["c"]`, table `[(0,2),(2,3)]`) and an
annotation with `start = 0`, `end = 1`.  The code stores whole table entries
(pairs) under `piece_start` and `piece_end`, looked up at `start` and at
`end` (not `end - 1`); in particular the stored values are not the scalar
integers `0` (the `offset_begin` of entry `start`) and `2` (the `offset_end`
of entry `end - 1`) the claim describes. -/
theorem projectAnn_stores_table_entries :
    projectAnn [(0, 2), (2, 3)] ⟨"m", "d-0", 0, 1, ["T"]⟩
      = .ok ⟨⟨"m", "d-0", 0, 1, ["T"]⟩, .pair (0, 2), .pair (2, 3)⟩
    ∧ PyVal.pair (0, 2) ≠ PyVal.int 0 ∧ PyVal.pair (2, 3) ≠ PyVal.int 2 :=
  ⟨rfl, fun h => PyVal.noConfusion h, fun h => PyVal.noConfusion h⟩

/-- C3: evaluation of the annotation-projection code at a one-token document
(`tokens = ["a"]`, one-to-one tokenizer, so the table is `[(0,1)]`) and the
invariant-satisfying annotation `start = 0`, `end = 1 = len(tokens)`:
the lookup `piece_indices[annotation['end']]` is out of bounds (the table has
exactly `len(tokens)` entries) and raises `IndexError`, contrary to the
claim that the endpoint lookups are defined whenever `end <= len(tokens)`. -/
theorem projectAnn_indexError_at_end :
    (tokenize (fun t => [t]) ["a"]).2 = [(0, 1)]
    ∧ projectAnn (tokenize (fun t => [t]) ["a"]).2 ⟨"m", "d-0", 0, 1, ["T"]⟩
        = .error .indexError :=
  ⟨rfl, rfl⟩

/-- C5: the piece-index table produced by `tokenize` has one entry per input
token; entry `0` begins at `0`; the `offset_begin` of entry `i + 1` equals
the `offset_end` of entry `i`; the last entry ends at the flat piece count;
and entry `i` has width `len(tokenizer.tokenize(tokens[i]))` — so the
entries are contiguous, non-overlapping and partition
`[0, total_piece_count)`. -/
theorem piece_index_table_partition (tok : String → List String) (ts : List String) :
    ((tokenize tok ts).2.length = ts.length)
    ∧ (0 < ts.length → ((tokenize tok ts).2.getD 0 (0, 0)).1 = 0)
    ∧ (∀ i, i + 1 < ts.length →
        ((tokenize tok ts).2.getD (i + 1) (0, 0)).1
          = ((tokenize tok ts).2.getD i (0, 0)).2)
    ∧ (0 < ts.length →
        ((tokenize tok ts).2.getD (ts.length - 1) (0, 0)).2
          = (tokenize tok ts).1.length)
    ∧ (∀ i, i < ts.length →
        ((tokenize tok ts).2.getD i (0, 0)).2
          = ((tokenize tok ts).2.getD i (0, 0)).1 + (tok (ts.getD i "")).length) := by
  have hlen : (ts.map tok).length = ts.length := by simp
  refine ⟨tokenize_table_length tok ts, ?_, ?_, ?_, ?_⟩
  · intro h
    rw [tokenize, tokenizeAux_getD _ _ _ (by simpa using h)]
    simp
  · intro i h
    rw [tokenize, tokenizeAux_getD _ _ _ (by simp; omega),
      tokenizeAux_getD _ _ _ (by simp; omega)]
  · intro h
    rw [tokenize, tokenizeAux_getD _ _ _ (by simp; omega)]
    have h1 : ts.length - 1 + 1 = ts.length := by omega
    rw [h1]
    simp [tokenizeAux_fst, List.take_of_length_le (le_of_eq hlen),
      Function.comp_def]
  · intro i h
    rw [tokenize, tokenizeAux_getD _ _ _ (by simpa using h)]
    simp only [List.take_succ, List.map_append, List.sum_append]
    have h2 : (ts.map tok)[i]? = some (tok (ts.getD i "")) := by
      rw [List.getElem?_map, List.getElem?_eq_getElem h, List.getD_eq_getElem ts "" h,
        Option.map_some']
    simp [h2]

theorem piece_index_table_partition_witness :
    ((0 : ℕ) + 1 < (["a", "b"] : List String).length)
    ∧ ((tokenize (fun t => [t, t]) ["a", "b"]).2.getD 1 (0, 0)).1
        = ((tokenize (fun t => [t, t]) ["a", "b"]).2.getD 0 (0, 0)).2 :=
  ⟨by decide, (piece_index_table_partition (fun t => [t, t]) ["a", "b"]).2.2.1 0 (by decide)⟩

/-- C4 counterexample: a one-token instance whose single annotation ends at
`len(tokens)` and whose piece count (1) is within the `max_len - 2 = 8`
budget.  It is not dropped as over-length, yet the conversion produces zero
output lines (the projection raises an uncaught `IndexError`), refuting
"a kept instance produces exactly one output line". -/
theorem convert_kept_zero_lines_cex :
    ¬ (((tokenize (fun t => [t]) ["a"]).1.length : ℤ) > 10 - 2)
    ∧ convertFixed (fun t => [t]) (fun _ => [])
        10 [⟨["a"], [⟨"m", "d-0", 0, 1, ["T"]⟩]⟩]
        = ([], 0, some .indexError) := by
  refine ⟨by decide, ?_⟩
  rfl

theorem projectAnn_err (tbl : List (ℕ × ℕ)) (a : Ann)
    (h : tbl.length ≤ a.start ∨ tbl.length ≤ a.stop) :
    projectAnn tbl a = .error .indexError := by
  unfold projectAnn
  rcases h with h | h
  · rw [List.getElem?_eq_none h]
  · rw [List.getElem?_eq_none h]
    cases tbl[a.start]? <;> rfl

theorem projectAnns_err (tbl : List (ℕ × ℕ)) (anns : List Ann)
    (h : ∃ a ∈ anns, tbl.length ≤ a.start ∨ tbl.length ≤ a.stop) :
    projectAnns tbl anns = .error .indexError := by
  induction anns with
  | nil => simp at h
  | cons a rest ih =>
    by_cases ha : tbl.length ≤ a.start ∨ tbl.length ≤ a.stop
    · simp [projectAnns, projectAnn_err tbl a ha]
    · have ha' : a.start < tbl.length ∧ a.stop < tbl.length := by
        constructor <;> omega
      have hrest : ∃ a' ∈ rest, tbl.length ≤ a'.start ∨ tbl.length ≤ a'.stop := by
        obtain ⟨a', ha'', hp⟩ := h
        rcases List.mem_cons.mp ha'' with rfl | hm
        · exact absurd hp ha
        · exact ⟨a', hm, hp⟩
      have h1 : projectAnn tbl a
          = .ok ⟨a, .pair (tbl.get ⟨a.start, ha'.1⟩), .pair (tbl.get ⟨a.stop, ha'.2⟩)⟩ := by
        simp only [projectAnn, List.getElem?_eq_getElem ha'.1,
          List.getElem?_eq_getElem ha'.2]
        rfl
      simp [projectAnns, h1, ih hrest]

theorem convertFixed_single_counter (tok : String → List String)
    (enc : List String → List ℤ) (maxLen : ℤ) (inst : CInstance) :
    (convertFixed tok enc maxLen [inst]).2.1
      = if ((tokenize tok inst.tokens).1.length : ℤ) > maxLen - 2 then 1 else 0 := by
  by_cases hP : ((tokenize tok inst.tokens).1.length : ℤ) > maxLen - 2
  · simp [convertFixed, runLoop, processInst, hP]
  · cases hpr : projectAnns (tokenize tok inst.tokens).2 inst.anns with
    | error e => simp [convertFixed, runLoop, processInst, hP, hpr]
    | ok bs => simp [convertFixed, runLoop, processInst, hP, hpr]

/-- C4 amended: an instance is dropped (counted as overlength) iff its total
flat piece count exceeds `max_len - 2`, and this decision depends only on
the total piece length, never on the annotation list; a dropped instance
produces zero output lines and increments the overlength counter by exactly
1; a kept instance produces exactly one output line when every annotation's
`start` and `end` are strictly below `len(tokens)`, and zero output lines
(with an uncaught `IndexError` and the counter unchanged) when some
annotation's `start` or `end` reaches `len(tokens)`. -/
theorem convert_drop_rule (tok : String → List String) (enc : List String → List ℤ)
    (maxLen : ℤ) (inst : CInstance) :
    ((convertFixed tok enc maxLen [inst]).2.1 = 1
        ↔ ((tokenize tok inst.tokens).1.length : ℤ) > maxLen - 2)
    ∧ (∀ anns' : List Ann,
        (convertFixed tok enc maxLen [⟨inst.tokens, anns'⟩]).2.1
          = (convertFixed tok enc maxLen [inst]).2.1)
    ∧ (((tokenize tok inst.tokens).1.length : ℤ) > maxLen - 2 →
        convertFixed tok enc maxLen [inst] = ([], 1, none))
    ∧ (¬ ((tokenize tok inst.tokens).1.length : ℤ) > maxLen - 2 →
        ((∀ a ∈ inst.anns, a.start < inst.tokens.length ∧ a.stop < inst.tokens.length) →
            (convertFixed tok enc maxLen [inst]).1.length = 1
              ∧ (convertFixed tok enc maxLen [inst]).2.1 = 0
              ∧ (convertFixed tok enc maxLen [inst]).2.2 = none)
          ∧ ((∃ a ∈ inst.anns,
                inst.tokens.length ≤ a.start ∨ inst.tokens.length ≤ a.stop) →
            convertFixed tok enc maxLen [inst] = ([], 0, some .indexError))) := by
  refine ⟨?_, ?_, ?_, ?_⟩
  · rw [convertFixed_single_counter]
    by_cases hP : ((tokenize tok inst.tokens).1.length : ℤ) > maxLen - 2 <;> simp [hP]
  · intro anns'
    rw [convertFixed_single_counter, convertFixed_single_counter]
  · intro hP
    simp [convertFixed, runLoop, processInst, hP]
  · intro hP
    constructor
    · intro hb
      have hb' : ∀ a ∈ inst.anns,
          a.start < (tokenize tok inst.tokens).2.length
            ∧ a.stop < (tokenize tok inst.tokens).2.length := by
        intro a ha
        rw [tokenize_table_length]
        exact hb a ha
      obtain ⟨bs, hbs⟩ := projectAnns_ok _ _ hb'
      have hrun : convertFixed tok enc maxLen [inst]
          = ([⟨inst.tokens, enc (tokenize tok inst.tokens).1, bs⟩], 0, none) := by
        simp [convertFixed, runLoop, processInst, hP, hbs]
      rw [hrun]
      simp
    · intro hoob
      have hoob' : ∃ a ∈ inst.anns,
          (tokenize tok inst.tokens).2.length ≤ a.start
            ∨ (tokenize tok inst.tokens).2.length ≤ a.stop := by
        obtain ⟨a, ha, hp⟩ := hoob
        refine ⟨a, ha, ?_⟩
        rw [tokenize_table_length]
        exact hp
      have herr := projectAnns_err _ _ hoob'
      simp [convertFixed, runLoop, processInst, hP, herr]

theorem convert_drop_rule_witness :
    ((convertFixed (fun t => [t]) (fun _ => []) 10
        [⟨["a", "b"], [⟨"m", "d-0", 0, 1, ["T"]⟩]⟩]).1.length = 1
      ∧ (convertFixed (fun t => [t]) (fun _ => []) 10
          [⟨["a", "b"], [⟨"m", "d-0", 0, 1, ["T"]⟩]⟩]).2.1 = 0
      ∧ (convertFixed (fun t => [t]) (fun _ => []) 10
          [⟨["a", "b"], [⟨"m", "d-0", 0, 1, ["T"]⟩]⟩]).2.2 = none)
    ∧ convertFixed (fun t => [t]) (fun _ => []) 10
        [⟨["a"], [⟨"m", "d-0", 0, 1, ["T"]⟩]⟩] = ([], 0, some .indexError) :=
  ⟨((convert_drop_rule (fun t => [t]) (fun _ => []) 10
      ⟨["a", "b"], [⟨"m", "d-0", 0, 1, ["T"]⟩]⟩).2.2.2 (by decide)).1 (by decide),
   ((convert_drop_rule (fun t => [t]) (fun _ => []) 10
      ⟨["a"], [⟨"m", "d-0", 0, 1, ["T"]⟩]⟩).2.2.2 (by decide)).2 (by decide)⟩

theorem head?_insertionSort_min (l : List (String × ℕ)) :
    ((List.insertionSort countLE l).head?).map Prod.snd = (l.map Prod.snd).min? := by
  cases hs : List.insertionSort countLE l with
  | nil =>
    have hp := List.perm_insertionSort countLE l
    rw [hs] at hp
    rw [hp.symm.eq_nil]
    rfl
  | cons hd tl =>
    have hp := List.perm_insertionSort countLE l
    rw [hs] at hp
    have hmem : hd ∈ l := hp.subset (by simp)
    have hsort := List.sorted_insertionSort countLE l
    rw [hs] at hsort
    have hmin : ∀ b ∈ l.map Prod.snd, hd.2 ≤ b := by
      intro b hb
      obtain ⟨y, hy, rfl⟩ := List.mem_map.mp hb
      have hy' : y ∈ hd :: tl := hp.symm.subset hy
      rcases List.mem_cons.mp hy' with h | h
      · exact le_of_eq (congrArg Prod.snd h.symm)
      · exact List.rel_of_sorted_cons hsort y h
    simp only [List.head?_cons, Option.map_some']
    symm
    rw [List.min?_eq_some_iff']
    exact ⟨List.mem_map_of_mem Prod.snd hmem, hmin⟩

/-- C6: in `downsample`, an instance whose minimum label frequency (over all
labels of all its annotations, counted by `count_labels` over the input) is
strictly below the threshold is written to the output for every value of the
uniform draw, i.e. with probability 1. -/
theorem downsample_rare_always_kept (corpus : List CInstance) (threshold : ℕ)
    (inst : CInstance) (d : ℝ) (m : ℕ)
    (hm : ((instLabelCounts (countLabels corpus) inst).map Prod.snd).min? = some m)
    (hlt : m < threshold) :
    DownsampleKeep (countLabels corpus) threshold inst d := by
  have h := head?_insertionSort_min (instLabelCounts (countLabels corpus) inst)
  rw [hm] at h
  unfold DownsampleKeep
  split
  · next heq =>
    rw [sortedInstLabelCounts] at heq
    rw [heq] at h
    simp at h
  · next mc heq =>
    rw [sortedInstLabelCounts] at heq
    rw [heq] at h
    simp only [Option.map_some', Option.some_inj] at h
    rw [if_pos (h ▸ hlt)]
    trivial

theorem downsample_rare_always_kept_witness :
    (((instLabelCounts (countLabels [⟨["w"], [⟨"m", "d-0", 0, 1, ["A"]⟩]⟩])
        ⟨["w"], [⟨"m", "d-0", 0, 1, ["A"]⟩]⟩).map Prod.snd).min? = some 1)
    ∧ (1 < 5)
    ∧ DownsampleKeep (countLabels [⟨["w"], [⟨"m", "d-0", 0, 1, ["A"]⟩]⟩]) 5
        ⟨["w"], [⟨"m", "d-0", 0, 1, ["A"]⟩]⟩ 0 :=
  ⟨by decide, by decide,
    downsample_rare_always_kept [⟨["w"], [⟨"m", "d-0", 0, 1, ["A"]⟩]⟩] 5
      ⟨["w"], [⟨"m", "d-0", 0, 1, ["A"]⟩]⟩ 0 1 (by decide) (by decide)⟩

/-- C7: in `downsample`, an instance whose minimum label frequency `m` is at
least the threshold `t` is kept iff the uniform draw is strictly below
`(t + (m - t) ** 0.55) / m`. -/
theorem downsample_common_keep_iff (corpus : List CInstance) (threshold : ℕ)
    (inst : CInstance) (d : ℝ) (m : ℕ)
    (hm : ((instLabelCounts (countLabels corpus) inst).map Prod.snd).min? = some m)
    (hge : threshold ≤ m) :
    DownsampleKeep (countLabels corpus) threshold inst d
      ↔ d < (((threshold : ℝ)) + ((m : ℝ) - (threshold : ℝ)) ^ ((0.55 : ℝ))) / (m : ℝ) := by
  have h := head?_insertionSort_min (instLabelCounts (countLabels corpus) inst)
  rw [hm] at h
  unfold DownsampleKeep
  split
  · next heq =>
    rw [sortedInstLabelCounts] at heq
    rw [heq] at h
    simp at h
  · next mc heq =>
    rw [sortedInstLabelCounts] at heq
    rw [heq] at h
    simp only [Option.map_some', Option.some_inj] at h
    rw [if_neg (by omega), h]

theorem downsample_common_keep_iff_witness :
    (((instLabelCounts (countLabels [⟨["w"], [⟨"m", "d-0", 0, 1, ["A"]⟩]⟩])
        ⟨["w"], [⟨"m", "d-0", 0, 1, ["A"]⟩]⟩).map Prod.snd).min? = some 1)
    ∧ ((1 : ℕ) ≤ 1)
    ∧ (DownsampleKeep (countLabels [⟨["w"], [⟨"m", "d-0", 0, 1, ["A"]⟩]⟩]) 1
          ⟨["w"], [⟨"m", "d-0", 0, 1, ["A"]⟩]⟩ 0
        ↔ (0 : ℝ) < (((1 : ℕ) : ℝ) + (((1 : ℕ) : ℝ) - ((1 : ℕ) : ℝ)) ^ ((0.55 : ℝ))) / ((1 : ℕ) : ℝ)) :=
  ⟨by decide, by decide,
    downsample_common_keep_iff [⟨["w"], [⟨"m", "d-0", 0, 1, ["A"]⟩]⟩] 1
      ⟨["w"], [⟨"m", "d-0", 0, 1, ["A"]⟩]⟩ 0 1 (by decide) (by decide)⟩

theorem splitRun_count (lc : String → ℕ) (threshold : ℕ) (rate : ℚ)
    (lines : List (CInstance × ℚ)) (x : CInstance) :
    (splitRun lc threshold rate lines).1.count x
        + (splitRun lc threshold rate lines).2.count x
      = (lines.map Prod.fst).count x := by
  induction lines with
  | nil => simp [splitRun]
  | cons p rest ih =>
    simp only [splitRun, List.map_cons]
    split
    · simp only [List.count_cons]
      omega
    · simp only [List.count_cons]
      omega

theorem splitInfreq_iff (lc : String → ℕ) (threshold : ℕ) (inst : CInstance) :
    splitInfreq lc threshold inst = true
      ↔ ∃ a ∈ inst.anns, ∃ l ∈ a.labels, lc l < threshold := by
  simp [splitInfreq]

/-- C8: `split` writes every input instance to exactly one of the train and
dev outputs (multiset partition); an instance with at least one label whose
global count is below the rarity threshold goes to train for every value of
the draw; any other instance goes to dev exactly when its draw is at most
`dev_rate`, else to train. -/
theorem split_partition (threshold : ℕ) (rate : ℚ) (lines : List (CInstance × ℚ)) :
    (∀ x : CInstance,
      (split threshold rate lines).1.count x + (split threshold rate lines).2.count x
        = (lines.map Prod.fst).count x)
    ∧ (∀ inst d,
        (∃ a ∈ inst.anns, ∃ l ∈ a.labels,
            countLabels (lines.map Prod.fst) l < threshold) →
        splitDest (countLabels (lines.map Prod.fst)) threshold rate inst d = .train)
    ∧ (∀ inst d,
        ¬ (∃ a ∈ inst.anns, ∃ l ∈ a.labels,
            countLabels (lines.map Prod.fst) l < threshold) →
        (splitDest (countLabels (lines.map Prod.fst)) threshold rate inst d = .dev
          ↔ d ≤ rate)) := by
  refine ⟨fun x => splitRun_count _ _ _ _ x, fun inst d hinf => ?_, fun inst d hninf => ?_⟩
  · have hb : splitInfreq (countLabels (lines.map Prod.fst)) threshold inst = true :=
      (splitInfreq_iff _ _ _).mpr hinf
    simp [splitDest, hb]
  · have hb : splitInfreq (countLabels (lines.map Prod.fst)) threshold inst = false := by
      rw [← Bool.not_eq_true, splitInfreq_iff]
      exact hninf
    simp only [splitDest, hb, Bool.false_eq_true, false_or]
    constructor
    · intro hdev
      by_contra hgt
      rw [if_pos (lt_of_not_le hgt)] at hdev
      exact Dest.noConfusion hdev
    · intro hle
      rw [if_neg (not_lt.mpr hle)]

theorem split_partition_witness :
    (∃ a ∈ (⟨["w"], [⟨"m", "d-0", 0, 1, ["A"]⟩]⟩ : CInstance).anns,
        ∃ l ∈ a.labels,
          countLabels ([(⟨["w"], [⟨"m", "d-0", 0, 1, ["A"]⟩]⟩, (1 : ℚ))].map Prod.fst) l < 2)
    ∧ splitDest
        (countLabels ([(⟨["w"], [⟨"m", "d-0", 0, 1, ["A"]⟩]⟩, (1 : ℚ))].map Prod.fst))
        2 (1 / 2) ⟨["w"], [⟨"m", "d-0", 0, 1, ["A"]⟩]⟩ 1 = .train :=
  ⟨by decide,
    (split_partition 2 (1 / 2) [(⟨["w"], [⟨"m", "d-0", 0, 1, ["A"]⟩]⟩, (1 : ℚ))]).2.1
      ⟨["w"], [⟨"m", "d-0", 0, 1, ["A"]⟩]⟩ 1 (by decide)⟩

theorem counterUpdate_apply (c : String → ℕ) (labels : List String) (x : String) :
    counterUpdate c labels x = c x + labels.count x := by
  induction labels generalizing c with
  | nil => simp [counterUpdate]
  | cons l ls ih =>
    simp only [counterUpdate, List.foldl_cons] at *
    rw [ih]
    by_cases h : x = l
    · subst h
      simp [List.count_cons]
      omega
    · have h2 : (l == x) = false := by
        simp [Ne.symm h]
      simp [List.count_cons, h, h2]

theorem annsFold_apply (c : String → ℕ) (anns : List Ann) (x : String) :
    (anns.foldl (fun c a => counterUpdate c a.labels) c) x
      = c x + (anns.flatMap fun a => a.labels).count x := by
  induction anns generalizing c with
  | nil => simp
  | cons a rest ih =>
    simp only [List.foldl_cons, List.flatMap_cons, List.count_append, ih,
      counterUpdate_apply]
    omega

theorem countLabels_apply (corpus : List CInstance) (x : String) :
    countLabels corpus x
      = (corpus.flatMap fun i => i.anns.flatMap fun a => a.labels).count x := by
  have hgen : ∀ (cs : List CInstance) (c : String → ℕ),
      (cs.foldl (fun c inst => inst.anns.foldl (fun c a => counterUpdate c a.labels) c) c) x
        = c x + (cs.flatMap fun i => i.anns.flatMap fun a => a.labels).count x := by
    intro cs
    induction cs with
    | nil => simp
    | cons i rest ih =>
      intro c
      simp only [List.foldl_cons, List.flatMap_cons, List.count_append, ih,
        annsFold_apply]
      omega
  simpa using hgen corpus (fun _ => 0)

/-- C9 counterexample: an annotation whose `labels` list is `["A","A"]`
contributes 2 to the count of `"A"` (`Counter.update` counts occurrences),
not the "exactly 1 per annotation carrying the label" the claim asserts. -/
theorem count_labels_duplicate_cex :
    countLabels [⟨["w"], [⟨"m", "d-0", 0, 1, ["A", "A"]⟩]⟩] "A" = 2
    ∧ (2 : ℕ) ≠ 1 :=
  ⟨by decide, by decide⟩

/-- C9 amended: `count_labels` maps each label to its number of occurrences
across all annotations' label lists — an annotation contributes the
multiplicity of the label in its (undeduplicated) `labels` list, and an
annotation not carrying the label contributes 0 — the result is invariant
under reordering of the instances, and on the two-instance corpus with
annotation labels `["A","B"]` and `["B"]` it yields `A ↦ 1`, `B ↦ 2`. -/
theorem count_labels_spec :
    (∀ (corpus : List CInstance) (l : String),
      countLabels corpus l
        = (corpus.flatMap fun i => i.anns.flatMap fun a => a.labels).count l)
    ∧ (∀ (c1 c2 : List CInstance) (l : String), c1.Perm c2 →
        countLabels c1 l = countLabels c2 l)
    ∧ (countLabels [⟨["w"], [⟨"m", "d-0", 0, 1, ["A", "B"]⟩]⟩,
          ⟨["w"], [⟨"m", "d-1", 0, 1, ["B"]⟩]⟩] "A" = 1
        ∧ countLabels [⟨["w"], [⟨"m", "d-0", 0, 1, ["A", "B"]⟩]⟩,
            ⟨["w"], [⟨"m", "d-1", 0, 1, ["B"]⟩]⟩] "B" = 2) := by
  refine ⟨countLabels_apply, fun c1 c2 l hp => ?_, by decide, by decide⟩
  rw [countLabels_apply, countLabels_apply]
  exact (hp.flatMap_right _).count_eq l

theorem count_labels_spec_witness :
    ([⟨["w"], [⟨"m", "d-0", 0, 1, ["A"]⟩]⟩,
        ⟨["u"], [⟨"m", "d-1", 0, 1, ["B"]⟩]⟩] : List CInstance).Perm
      [⟨["u"], [⟨"m", "d-1", 0, 1, ["B"]⟩]⟩, ⟨["w"], [⟨"m", "d-0", 0, 1, ["A"]⟩]⟩]
    ∧ countLabels [⟨["w"], [⟨"m", "d-0", 0, 1, ["A"]⟩]⟩,
        ⟨["u"], [⟨"m", "d-1", 0, 1, ["B"]⟩]⟩] "A"
      = countLabels [⟨["u"], [⟨"m", "d-1", 0, 1, ["B"]⟩]⟩,
          ⟨["w"], [⟨"m", "d-0", 0, 1, ["A"]⟩]⟩] "A" :=
  ⟨List.Perm.swap' _ _ (List.Perm.refl []),
    count_labels_spec.2.1 _ _ "A" (List.Perm.swap' _ _ (List.Perm.refl []))⟩

theorem buildAnns_ids (docId : String) (sMap eMap : ℕ → Option ℕ)
    (ents : List (String × ℕ × ℕ × List String)) :
    ∀ c : ℕ,
      (buildAnns docId sMap eMap ents c).map Ann.mention_id
        = (List.range' c (buildAnns docId sMap eMap ents c).length).map
            (fun i => docId ++ "-" ++ toString i) := by
  induction ents with
  | nil => intro c; simp [buildAnns]
  | cons ent rest ih =>
    intro c
    simp only [buildAnns]
    split
    · simp only [List.map_cons, List.length_cons, List.range'_succ, ih (c + 1)]
    · exact ih c

/-- C10: within one document (with a fresh `doc_id`, so the per-document
counter starts at 0), the produced `mention_id`s are exactly
`doc_id-0, doc_id-1, …, doc_id-(n-1)` in link order, where `n` is the number
of annotations actually created; a link dropped for a missing title field,
an empty ontology intersection, or an offset mismatch consumes no counter
value. -/
theorem mention_id_sequencing (etm : String → Option (List String))
    (typeSet : List String) (docId : String) (tokens : List WToken)
    (links : List WLink) :
    (extractDoc etm typeSet docId tokens links).map Ann.mention_id
      = (List.range (extractDoc etm typeSet docId tokens links).length).map
          (fun i => docId ++ "-" ++ toString i) := by
  rw [List.range_eq_range']
  exact buildAnns_ids docId _ _ _ 0

end BertFet
